import Mathlib

/-!
# SimpleVocoder: the per-sample kernel of `PluginProcessor.cpp`

A shallow embedding of `SimpleVocoderProcessor::prepareToPlay` and
`SimpleVocoderProcessor::processBlock`.

* Samples (`float` in the source) are values of an arbitrary type `α` that
  carries `+`, `*`, `/`, `0`, `1`; the literals and the library calls the code
  uses (`sqrtf`, `exp2f`, the conversions) are the fields of a `FloatEnv α`.
  Nothing is assumed about them in the definitions, so every definition is a
  program and can be run on `ℚ` or `ℤ`.
* `unsigned char` and 32-bit unsigned values are natural numbers, reduced
  `% 256` and `% 2 ^ 32` where the source wraps.
* Arrays are functions from the index; a store is `Function.update`.
* Each `for` loop is a left fold of its body over its index range.
-/

set_option linter.unusedSectionVars false

namespace SimpleVocoder

/-- The literals and library functions `PluginProcessor.cpp` applies to `float`s. -/
structure FloatEnv (α : Type) where
  /-- the literal `0.9975f` -/
  decay : α
  /-- the literal `0.0025f` -/
  blend : α
  /-- the literal `0x1p-10f` -/
  eps : α
  /-- the literal `440.0f` -/
  c440 : α
  /-- the literal `12.0f` -/
  c12 : α
  /-- the literal `0x1p32f` -/
  two32 : α
  /-- the literal `44100.0f` -/
  c44100 : α
  /-- the library function `sqrtf` -/
  sqrtf : α → α
  /-- the library function `exp2f` -/
  exp2f : α → α
  /-- the conversion of an `int` to `float` -/
  ofInt : Int → α
  /-- the conversion of a `float` to the unsigned type of `delta` -/
  toU32 : α → Nat

/-- The environment in which every literal has its exact value in a field. The
three functions that have no rational closed form stay parameters. -/
def exactEnv {α : Type} [Field α] (sqrtf exp2f : α → α) (toU32 : α → Nat) : FloatEnv α where
  decay := 399 / 400
  blend := 1 / 400
  eps := 1 / 1024
  c440 := 440
  c12 := 12
  two32 := 4294967296
  c44100 := 44100
  sqrtf := sqrtf
  exp2f := exp2f
  ofInt := fun z => (z : α)
  toU32 := toU32

/-- Modelled from the spec: the data members of `SimpleVocoderProcessor`, declared in
`PluginProcessor.h`, which is absent. The spec (section 3) gives `X` and `Y` 256
samples, `R` 128 samples, `window` 256 samples, `phase` and `delta` 32 bits
unsigned and `pos` 8 bits unsigned. -/
structure State (α : Type) where
  X : Nat → α
  Y : Nat → α
  R : Nat → α
  window : Nat → α
  phase : Nat
  delta : Nat
  pos : Nat

/-- What `processBlock` reads of a `juce::MidiMessage`: `isNoteOn()` and
`getNoteNumber()`. -/
structure MidiMessage where
  isNoteOn : Bool
  noteNumber : Int
deriving DecidableEq, Repr

/-- An element of the `juce::MidiBuffer`: a message and its position in the block.
`processBlock` calls `getMessage()` only. -/
structure MidiEvent where
  message : MidiMessage
  samplePosition : Nat
deriving DecidableEq, Repr

/-- The note number of the last note-on of an event list, in the words of the
spec: of the events that are note-ons, the last one. -/
def lastNoteOn (midi : List MidiEvent) : Option Int :=
  ((midi.filter (fun m => m.message.isNoteOn)).getLast?).map (fun m => m.message.noteNumber)

/-- The value one grain adds `d` samples after its trigger, `d = 0 .. 254`: the
first loop of the synthesis covers `d < 127` with `k = d + 1`, the second covers
the rest with `k = d - 127`. -/
def grainValue {α : Type} [Mul α] (R window : Nat → α) (scale : α) (d : Nat) : α :=
  if d < 127 then R (127 - d) * window (d + 1) * scale
  else R (d - 127) * window (d + 1) * scale

section Kernel

variable {α : Type} [Zero α] [One α] [Add α] [Mul α] [Div α]

/-- The expression `440.0f * exp2f((n-69)/12.0f) * 0x1p32f / 44100.0f`, converted
to the type of `delta` (lines 109 and 153). -/
def noteDelta (env : FloatEnv α) (n : Int) : Nat :=
  env.toU32 (env.c440 * env.exp2f (env.ofInt (n - 69) / env.c12) * env.two32 / env.c44100)
    % 2 ^ 32

/-- `prepareToPlay (sampleRate, samplesPerBlock)`, lines 100-112: the three
`memset`s, `phase = 0`, `delta` from the literal note `60`, `pos = 0`. Neither
argument is read. All three `memset`s pass `sizeof(X)`; the model zeroes `X`, `Y`
and `R` and nothing else, the layout of the members being outside the model.
`window` is filled by the constructor and is not touched here. -/
def prepareToPlay (env : FloatEnv α) (s : State α) (_sampleRate : ℚ) (_samplesPerBlock : Int) :
    State α :=
  { X := fun _ => 0
    Y := fun _ => 0
    R := fun _ => 0
    window := s.window
    phase := 0
    delta := noteDelta env (60 : Int)
    pos := 0 }

/-- One pass of the loop at lines 150-154: a note-on overwrites `delta`. -/
def applyMidi (env : FloatEnv α) (s : State α) (m : MidiEvent) : State α :=
  if m.message.isNoteOn then { s with delta := noteDelta env m.message.noteNumber } else s

/-- The loop `for (auto m : midiMessages)` at lines 150-154. -/
def applyMidiBuffer (env : FloatEnv α) (s : State α) (midi : List MidiEvent) : State α :=
  midi.foldl (applyMidi env) s

/-- The store `X[pos] = *src++` at line 161. -/
def storeInput (s : State α) (x : α) : Nat → α :=
  Function.update s.X s.pos x

/-- The body of the loop at line 164:
`R[lag] = R[lag] * 0.9975f + 0.0025f * X[pos] * X[rd--]`, on the pair `(R, rd)`. -/
def autocorrBody (env : FloatEnv α) (X : Nat → α) (pos : Nat) (st : (Nat → α) × Nat)
    (lag : Nat) : (Nat → α) × Nat :=
  (Function.update st.1 lag (st.1 lag * env.decay + env.blend * X pos * X st.2),
   (st.2 + 255) % 256)

/-- Lines 163-164: `rd = pos`, then the loop over `lag = 0 .. 127`. -/
def autocorr (env : FloatEnv α) (X : Nat → α) (pos : Nat) (R : Nat → α) : Nat → α :=
  ((List.range 128).foldl (autocorrBody env X pos) (R, pos)).1

/-- The array `R` after lines 161-164 of one sample. -/
def updatedR (env : FloatEnv α) (s : State α) (x : α) : Nat → α :=
  autocorr env (storeInput s x) s.pos s.R

/-- The gain correction `1.0f / sqrtf(R[0] + 0x1p-10f)` of line 170. -/
def gainScale (env : FloatEnv α) (R : Nat → α) : α :=
  1 / env.sqrtf (R 0 + env.eps)

/-- The body of the loop at line 171: `Y[wy++] += R[128-k] * window[k] * scale`,
on the pair `(Y, wy)`. -/
def addBackwardBody (R window : Nat → α) (scale : α) (st : (Nat → α) × Nat) (k : Nat) :
    (Nat → α) × Nat :=
  (Function.update st.1 st.2 (st.1 st.2 + R (128 - k) * window k * scale), (st.2 + 1) % 256)

/-- The body of the loop at line 172: `Y[wy++] += R[k] * window[k+128] * scale`,
on the pair `(Y, wy)`. -/
def addForwardBody (R window : Nat → α) (scale : α) (st : (Nat → α) × Nat) (k : Nat) :
    (Nat → α) × Nat :=
  (Function.update st.1 st.2 (st.1 st.2 + R k * window (k + 128) * scale), (st.2 + 1) % 256)

/-- Lines 169-172 without the computation of `scale`: `wy = pos`, the loop over
`k = 1 .. 127`, then the loop over `k = 0 .. 127`, which goes on with the same `wy`. -/
def synthesize (R window : Nat → α) (scale : α) (pos : Nat) (Y : Nat → α) : Nat → α :=
  ((List.range 128).foldl (addForwardBody R window scale)
    ((List.range' 1 127).foldl (addBackwardBody R window scale) (Y, pos))).1

/-- The test `phase < delta` of line 167, after `phase += delta` of line 166. -/
def fires (s : State α) : Bool :=
  decide ((s.phase + s.delta) % 2 ^ 32 < s.delta)

/-- The array `Y` at line 174 of one sample, after the conditional synthesis. -/
def accumulated (env : FloatEnv α) (s : State α) (x : α) : Nat → α :=
  if (s.phase + s.delta) % 2 ^ 32 < s.delta then
    synthesize (updatedR env s x) s.window (gainScale env (updatedR env s x)) s.pos s.Y
  else s.Y

/-- The body of the sample loop, lines 161-175: the new state and the sample
written to `*dst`. -/
def sampleStep (env : FloatEnv α) (s : State α) (x : α) : State α × α :=
  ({ X := storeInput s x
     Y := Function.update (accumulated env s x) s.pos 0
     R := updatedR env s x
     window := s.window
     phase := (s.phase + s.delta) % 2 ^ 32
     delta := s.delta
     pos := (s.pos + 1) % 256 },
   accumulated env s x s.pos)

/-- The sample loop, lines 159-176, over the samples of channel 0. -/
def processSamples (env : FloatEnv α) : State α → List α → State α × List α
  | s, [] => (s, [])
  | s, x :: xs =>
    let r := sampleStep env s x
    let rest := processSamples env r.1 xs
    (rest.1, r.2 :: rest.2)

/-- `processBlock (buffer, midiMessages)`, lines 146-176, on channel 0: the MIDI
loop, then the sample loop. -/
def processBlock (env : FloatEnv α) (s : State α) (midi : List MidiEvent) (src : List α) :
    State α × List α :=
  processSamples env (applyMidiBuffer env s midi) src

/-- A session: `processBlock` called on a list of blocks in turn; the outputs of
the blocks are collected in order. -/
def runBlocks (env : FloatEnv α) : State α → List (List MidiEvent × List α) →
    State α × List (List α)
  | s, [] => (s, [])
  | s, b :: bs =>
    let r := processBlock env s b.1 b.2
    let rest := runBlocks env r.1 bs
    (rest.1, r.2 :: rest.2)

/-- The state in which sample number `t` of the buffer `xs` is processed. -/
def stateBefore (env : FloatEnv α) (s : State α) (xs : List α) (t : Nat) : State α :=
  (processSamples env s (xs.take t)).1

/-- The number of samples of `xs` on which the test of line 167 succeeds. -/
def triggerCount (env : FloatEnv α) : State α → List α → Nat
  | _, [] => 0
  | s, x :: xs => (if fires s then 1 else 0) + triggerCount env (sampleStep env s x).1 xs

/-- The `delta` a block is specified to run with: the one of its last note-on,
or the inherited one when it has no note-on. -/
def effectiveDelta (env : FloatEnv α) (s : State α) (midi : List MidiEvent) : Nat :=
  match lastNoteOn midi with
  | some n => noteDelta env n
  | none => s.delta

/-- What the pass on the state `st` and the sample `x` adds `d` places after
`st.pos`: the grain value when the pass fires, nothing otherwise. -/
def grainOf (env : FloatEnv α) (st : State α) (x : α) (d : Nat) : α :=
  if fires st then
    grainValue (updatedR env st x) st.window (gainScale env (updatedR env st x)) d
  else 0

/-- The grain value at offset `d` of sample number `i` of the run on `xs` from
`s0`, computed from the `R` that sample `i` has updated. -/
def triggerGrain (env : FloatEnv α) (s0 : State α) (xs : List α) (i d : Nat) : α :=
  grainValue (updatedR env (stateBefore env s0 xs i) (xs.getD i 0))
    (stateBefore env s0 xs i).window
    (gainScale env (updatedR env (stateBefore env s0 xs i) (xs.getD i 0))) d

/-- The state a reset leaves, with `Delta` in the place of the default `delta`. -/
def freshState (env : FloatEnv α) (s : State α) (sampleRate : ℚ) (samplesPerBlock : Int)
    (Delta : Nat) : State α :=
  { prepareToPlay env s sampleRate samplesPerBlock with delta := Delta }

end Kernel

/-! ## Definitions for the statements -/

/-- The shape the two synthesis loop bodies share: add `g k` at the write cursor
and advance the cursor. -/
def ringAddBody {α : Type} [Add α] (g : Nat → α) (st : (Nat → α) × Nat) (k : Nat) :
    (Nat → α) × Nat :=
  (Function.update st.1 st.2 (st.1 st.2 + g k), (st.2 + 1) % 256)

/-- A state whose autocorrelation profile and output accumulator are zero. -/
def Silent {α : Type} [Zero α] (s : State α) : Prop :=
  (∀ i, s.R i = 0) ∧ (∀ i, s.Y i = 0)

/-- The blocks of a session whose input is silence: block `b` has the events
`b.1` and `b.2` samples, all zero. -/
def silentBlocks {α : Type} [Zero α] (blocks : List (List MidiEvent × Nat)) :
    List (List MidiEvent × List α) :=
  blocks.map (fun b => (b.1, List.replicate b.2 0))

/-- The invariant of the sessions: `pos` is an 8-bit value and `R[0]` is not
negative. -/
def EnergyInv {α : Type} [Zero α] [LE α] (s : State α) : Prop :=
  s.pos < 256 ∧ 0 ≤ s.R 0

/-! ## Concrete data for the instances -/

/-- A square root on `ℚ` that is exact on the squares of rationals. -/
def sqrtQ (q : ℚ) : ℚ :=
  (Nat.sqrt q.num.toNat : ℚ) / (Nat.sqrt q.den : ℚ)

/-- A power of two on `ℚ` that is exact on the integers. -/
def exp2Q (q : ℚ) : ℚ :=
  (2 : ℚ) ^ ⌊q⌋

/-- Truncation of a rational to a natural number. -/
def truncQ (q : ℚ) : Nat :=
  ⌊q⌋₊

/-- The exact environment on `ℚ`. -/
def envQ : FloatEnv ℚ :=
  exactEnv sqrtQ exp2Q truncQ

/-- The state with every member zero. -/
def blankState (α : Type) [Zero α] : State α where
  X := fun _ => 0
  Y := fun _ => 0
  R := fun _ => 0
  window := fun _ => 0
  phase := 0
  delta := 0
  pos := 0

/-- A note-on for note `n` at a sample position of the block. -/
def noteOn (n : Int) (samplePosition : Nat) : MidiEvent :=
  ⟨⟨true, n⟩, samplePosition⟩

/-- A state at position 3 that fires on its next sample: `phase + delta` is
`2 ^ 32 + 6`. -/
def firingState : State ℚ where
  X := fun i => (i : ℚ)
  Y := fun _ => 0
  R := fun i => (i : ℚ) + 1
  window := fun _ => 1
  phase := 4294967295
  delta := 7
  pos := 3

/-- A state with `phase = 0` whose `delta` is a quarter of `2 ^ 32`. -/
def quarterState : State ℚ where
  X := fun _ => 0
  Y := fun _ => 0
  R := fun _ => 0
  window := fun _ => 1
  phase := 0
  delta := 1073741824
  pos := 0

/-! ## The loops in closed form -/

section Loops

variable {α : Type}

theorem addBackwardBody_eq [Add α] [Mul α] (R window : Nat → α) (scale : α) :
    addBackwardBody R window scale = ringAddBody (fun k => R (128 - k) * window k * scale) :=
  rfl

theorem addForwardBody_eq [Add α] [Mul α] (R window : Nat → α) (scale : α) :
    addForwardBody R window scale = ringAddBody (fun k => R k * window (k + 128) * scale) :=
  rfl

/-- A write loop of at most 256 passes touches the slot `j` places after its
start exactly once when `j` is below the number of passes, and not at all
otherwise. -/
theorem ringAdd_foldl [Add α] (g : Nat → α) :
    ∀ (l : List Nat) (Y : Nat → α) (wy : Nat), wy < 256 → l.length ≤ 256 →
      (l.foldl (ringAddBody g) (Y, wy)).2 = (wy + l.length) % 256 ∧
      ∀ j, j < 256 →
        (l.foldl (ringAddBody g) (Y, wy)).1 ((wy + j) % 256) =
          if j < l.length then Y ((wy + j) % 256) + g (l.getD j 0) else Y ((wy + j) % 256) := by
  intro l
  induction l with
  | nil =>
    intro Y wy hwy _
    refine ⟨?_, ?_⟩
    · simp [Nat.mod_eq_of_lt hwy]
    · intro j _
      simp
  | cons k l ih =>
    intro Y wy hwy hlen
    have hl : l.length ≤ 255 := by
      simp only [List.length_cons] at hlen
      omega
    have hw1 : (wy + 1) % 256 < 256 := Nat.mod_lt _ (by decide)
    obtain ⟨ih1, ih2⟩ :=
      ih (Function.update Y wy (Y wy + g k)) ((wy + 1) % 256) hw1 (by omega)
    simp only [List.foldl_cons, ringAddBody] at ih1 ih2 ⊢
    refine ⟨?_, ?_⟩
    · rw [ih1, List.length_cons]
      omega
    · intro j hj
      cases j with
      | zero =>
        have h255 := ih2 255 (by decide)
        have hslot : ((wy + 1) % 256 + 255) % 256 = wy := by omega
        have hno : ¬ (255 < l.length) := by omega
        rw [hslot, if_neg hno, Function.update_same] at h255
        have hz : (wy + 0) % 256 = wy := by omega
        rw [hz, h255]
        simp
      | succ j =>
        have hj1 := ih2 j (by omega)
        have hslot : ((wy + 1) % 256 + j) % 256 = (wy + (j + 1)) % 256 := by omega
        have hne : (wy + (j + 1)) % 256 ≠ wy := by omega
        rw [hslot, Function.update_noteq hne] at hj1
        rw [hj1]
        simp [List.length_cons]

/-- The synthesis in closed form: the slot `d` places after `pos` receives the
grain value of offset `d` for `d = 0 .. 254`; the slot 255 places after `pos` is
not written. -/
theorem synthesize_apply [Add α] [Mul α] (R window : Nat → α) (scale : α) (pos : Nat)
    (Y : Nat → α) (hpos : pos < 256) (d : Nat) (hd : d < 256) :
    synthesize R window scale pos Y ((pos + d) % 256) =
      if d < 255 then Y ((pos + d) % 256) + grainValue R window scale d
      else Y ((pos + d) % 256) := by
  unfold synthesize
  rw [addBackwardBody_eq, addForwardBody_eq]
  obtain ⟨hb2, hb1⟩ := ringAdd_foldl (fun k => R (128 - k) * window k * scale)
    (List.range' 1 127) Y pos hpos (by simp)
  rcases hback : (List.range' 1 127).foldl
    (ringAddBody (fun k => R (128 - k) * window k * scale)) (Y, pos) with ⟨Y1, wy1⟩
  rw [hback] at hb2 hb1
  simp only [List.length_range'] at hb2 hb1
  have hwy1 : wy1 < 256 := by
    rw [hb2]
    exact Nat.mod_lt _ (by decide)
  obtain ⟨_, hf1⟩ := ringAdd_foldl (fun k => R k * window (k + 128) * scale)
    (List.range 128) Y1 wy1 hwy1 (by simp)
  simp only [List.length_range] at hf1
  have hslot : (pos + d) % 256 = (wy1 + (d + 129) % 256) % 256 := by omega
  have hfd := hf1 ((d + 129) % 256) (Nat.mod_lt _ (by decide))
  rw [← hslot] at hfd
  rw [hfd, hb1 d hd]
  by_cases h1 : d < 127
  · have h2 : ¬ ((d + 129) % 256 < 128) := by omega
    have h3 : d < 255 := by omega
    have h4 : (List.range' 1 127).getD d 0 = d + 1 := by
      rw [List.getD_eq_getElem _ _ (by simpa using h1), List.getElem_range']
      omega
    have h5 : 128 - (d + 1) = 127 - d := by omega
    simp only [if_neg h2, if_pos h1, if_pos h3, grainValue, h4, h5]
  · by_cases h2 : d < 255
    · have h3 : (d + 129) % 256 < 128 := by omega
      have h4 : (d + 129) % 256 = d - 127 := by omega
      have h5 : (List.range 128).getD (d - 127) 0 = d - 127 := by
        rw [List.getD_eq_getElem _ _ (by simp; omega), List.getElem_range]
      have h6 : d - 127 + 128 = d + 1 := by omega
      have h7 : d - 127 < 128 := by omega
      simp only [if_neg h1, if_pos h2, grainValue, h4, h5, h6, if_pos h7]
    · have h3 : ¬ ((d + 129) % 256 < 128) := by omega
      simp only [if_neg h3, if_neg h1, if_neg h2]

/-- The autocorrelation loop after `n` passes: `rd` has stepped back `n` places
and the lags below `n` hold their new value. -/
theorem autocorr_foldl [Add α] [Mul α] (env : FloatEnv α) (X R : Nat → α) (pos : Nat)
    (hpos : pos < 256) :
    ∀ n, n ≤ 256 →
      ((List.range n).foldl (autocorrBody env X pos) (R, pos)).2 = (pos + 256 - n) % 256 ∧
      ∀ L, ((List.range n).foldl (autocorrBody env X pos) (R, pos)).1 L =
        if L < n then R L * env.decay + env.blend * X pos * X ((pos + 256 - L) % 256)
        else R L := by
  intro n
  induction n with
  | zero =>
    intro _
    refine ⟨?_, ?_⟩
    · simp
      omega
    · intro L
      simp
  | succ n ih =>
    intro hn
    obtain ⟨ih2, ih1⟩ := ih (by omega)
    rw [List.range_succ, List.foldl_append, List.foldl_cons, List.foldl_nil]
    simp only [autocorrBody]
    refine ⟨?_, ?_⟩
    · rw [ih2]
      omega
    · intro L
      by_cases hL : L = n
      · subst hL
        rw [Function.update_same, ih1 L, ih2]
        simp
      · rw [Function.update_noteq hL, ih1 L]
        by_cases h : L < n
        · have h2 : L < n + 1 := by omega
          simp only [if_pos h, if_pos h2]
        · have h2 : ¬ (L < n + 1) := by omega
          simp only [if_neg h, if_neg h2]

/-- The array `R` after the update of one sample, in closed form. -/
theorem updatedR_apply [Add α] [Mul α] (env : FloatEnv α) (s : State α) (x : α)
    (hpos : s.pos < 256) (L : Nat) :
    updatedR env s x L =
      if L < 128 then
        s.R L * env.decay + env.blend * storeInput s x s.pos *
          storeInput s x ((s.pos + 256 - L) % 256)
      else s.R L :=
  (autocorr_foldl env (storeInput s x) s.R s.pos hpos 128 (by decide)).2 L

end Loops

/-! ## The claims on one sample -/

section OneSample

variable {α : Type} [Zero α] [One α] [Add α] [Mul α] [Div α]

/-- C1: one pass of the sample loop stores the input sample `x` at `X[pos]` and
leaves the rest of `X` alone; then every lag `L` below 128 gets
`R[L] * 0.9975f + 0.0025f * X[pos] * X[(pos - L) mod 256]`, read in the history
after the store, and no index from 128 on is changed. The statement has no
condition on the trigger, so it holds on samples that fire and on samples that
do not. -/
theorem C1_autocorrelation_update (env : FloatEnv α) (s : State α) (x : α)
    (hpos : s.pos < 256) :
    (sampleStep env s x).1.X s.pos = x ∧
    (∀ i, i ≠ s.pos → (sampleStep env s x).1.X i = s.X i) ∧
    (∀ L, L < 128 →
      (sampleStep env s x).1.R L =
        s.R L * env.decay +
          env.blend * (sampleStep env s x).1.X s.pos *
            (sampleStep env s x).1.X (Int.toNat (((s.pos : Int) - (L : Int)) % 256))) ∧
    (∀ L, 128 ≤ L → (sampleStep env s x).1.R L = s.R L) := by
  refine ⟨?_, ?_, ?_, ?_⟩
  · simp [sampleStep, storeInput]
  · intro i hi
    simp [sampleStep, storeInput, Function.update_noteq hi]
  · intro L hL
    have hidx : Int.toNat (((s.pos : Int) - (L : Int)) % 256) = (s.pos + 256 - L) % 256 := by
      omega
    show updatedR env s x L = _
    rw [updatedR_apply env s x hpos L, if_pos hL, hidx]
    rfl
  · intro L hL
    have hL2 : ¬ (L < 128) := by omega
    show updatedR env s x L = _
    rw [updatedR_apply env s x hpos L, if_neg hL2]

/-- An instance of C1: the state `firingState` and the sample `5`. -/
theorem C1_autocorrelation_update_witness :
    firingState.pos < 256 ∧ (sampleStep envQ firingState 5).1.X firingState.pos = 5 :=
  ⟨by decide, (C1_autocorrelation_update envQ firingState 5 (by decide)).1⟩

theorem sampleStep_R (env : FloatEnv α) (s : State α) (x : α) :
    (sampleStep env s x).1.R = updatedR env s x :=
  rfl

theorem sampleStep_Y (env : FloatEnv α) (s : State α) (x : α) :
    (sampleStep env s x).1.Y = Function.update (accumulated env s x) s.pos 0 :=
  rfl

theorem sampleStep_pos (env : FloatEnv α) (s : State α) (x : α) :
    (sampleStep env s x).1.pos = (s.pos + 1) % 256 :=
  rfl

theorem sampleStep_out (env : FloatEnv α) (s : State α) (x : α) :
    (sampleStep env s x).2 = accumulated env s x s.pos :=
  rfl

/-- The array `Y` at line 174 of a sample that fires, slot by slot. -/
theorem accumulated_apply_of_fires (env : FloatEnv α) (s : State α) (x : α)
    (hpos : s.pos < 256) (hfire : fires s = true) (d : Nat) (hd : d < 256) :
    accumulated env s x ((s.pos + d) % 256) =
      if d < 255 then
        s.Y ((s.pos + d) % 256) +
          grainValue (updatedR env s x) s.window (gainScale env (updatedR env s x)) d
      else s.Y ((s.pos + d) % 256) := by
  have hcond : (s.phase + s.delta) % 2 ^ 32 < s.delta := by
    simpa [fires] using hfire
  unfold accumulated
  rw [if_pos hcond]
  exact synthesize_apply _ _ _ _ _ hpos d hd

/-- The array `Y` at line 174 of a sample that does not fire. -/
theorem accumulated_of_not_fires (env : FloatEnv α) (s : State α) (x : α)
    (hfire : fires s = false) : accumulated env s x = s.Y := by
  have hcond : ¬ ((s.phase + s.delta) % 2 ^ 32 < s.delta) := by
    simpa [fires] using hfire
  unfold accumulated
  rw [if_neg hcond]

/-- C2, as the code has it: on a sample that fires at position `p`, the first loop
adds `R[128-k] * window[k] * scale` into slot `(p + k - 1) mod 256` for
`k = 1 .. 127`, so its first write is to slot `p` itself, and the second loop adds
`R[k] * window[k+128] * scale` into slot `(p + 127 + k) mod 256` for `k = 0 .. 127`.
The slot `(p + 255) mod 256` is the one the grain does not write. `scale` is
`1 / sqrtf (R[0] + 0x1p-10f)` on the `R` that this sample has already updated,
which is the `R` of the state after the sample. The value written to slot `p` is
part of the output sample of this very pass. -/
theorem C2_synthesis_slots (env : FloatEnv α) (s : State α) (x : α)
    (hpos : s.pos < 256) (hfire : fires s = true) :
    (∀ k, 1 ≤ k → k < 128 →
      accumulated env s x ((s.pos + k - 1) % 256) =
        s.Y ((s.pos + k - 1) % 256) +
          updatedR env s x (128 - k) * s.window k * gainScale env (updatedR env s x)) ∧
    (∀ k, k < 128 →
      accumulated env s x ((s.pos + 127 + k) % 256) =
        s.Y ((s.pos + 127 + k) % 256) +
          updatedR env s x k * s.window (k + 128) * gainScale env (updatedR env s x)) ∧
    accumulated env s x ((s.pos + 255) % 256) = s.Y ((s.pos + 255) % 256) ∧
    gainScale env (updatedR env s x) =
      1 / env.sqrtf ((sampleStep env s x).1.R 0 + env.eps) ∧
    (sampleStep env s x).2 =
      s.Y s.pos + updatedR env s x 127 * s.window 1 * gainScale env (updatedR env s x) := by
  refine ⟨?_, ?_, ?_, ?_, ?_⟩
  · intro k hk1 hk2
    have h := accumulated_apply_of_fires env s x hpos hfire (k - 1) (by omega)
    have hslot : s.pos + (k - 1) = s.pos + k - 1 := by omega
    have h1 : k - 1 < 255 := by omega
    have h2 : k - 1 < 127 := by omega
    have h3 : 127 - (k - 1) = 128 - k := by omega
    have h4 : k - 1 + 1 = k := by omega
    rw [hslot, if_pos h1] at h
    rw [h]
    simp only [grainValue, if_pos h2, h3, h4]
  · intro k hk
    have h := accumulated_apply_of_fires env s x hpos hfire (127 + k) (by omega)
    have hslot : s.pos + (127 + k) = s.pos + 127 + k := by omega
    have h1 : 127 + k < 255 := by omega
    have h2 : ¬ (127 + k < 127) := by omega
    have h3 : 127 + k - 127 = k := by omega
    have h4 : 127 + k + 1 = k + 128 := by omega
    rw [hslot, if_pos h1] at h
    rw [h]
    simp only [grainValue, if_neg h2, h3, h4]
  · have h := accumulated_apply_of_fires env s x hpos hfire 255 (by decide)
    simpa using h
  · simp only [gainScale, sampleStep]
  · have h := accumulated_apply_of_fires env s x hpos hfire 0 (by decide)
    have hslot : (s.pos + 0) % 256 = s.pos := by omega
    rw [hslot] at h
    show accumulated env s x s.pos = _
    rw [h]
    simp [grainValue]

/-- An instance of C2: `firingState` fires, and its output sample is the value
the first pass of the first loop wrote. -/
theorem C2_synthesis_slots_witness :
    firingState.pos < 256 ∧ fires firingState = true ∧
    (sampleStep envQ firingState 5).2 =
      firingState.Y firingState.pos +
        updatedR envQ firingState 5 127 * firingState.window 1 *
          gainScale envQ (updatedR envQ firingState 5) :=
  ⟨by decide, by decide,
    (C2_synthesis_slots envQ firingState 5 (by decide) (by decide)).2.2.2.2⟩

/-- C2 as the spec states it fails. With `R[i] = i`, `window = 1`, `scale = 1`,
`Y = 0` and `p = 0`, the synthesis writes `R[127] = 127` into slot `p` itself,
which the claim says is not written, and slot `p + 1` gets `R[126]`, not the
`R[127]` the claim assigns to `k = 1`; slot `p + 128` gets `R[1]`, not `R[0]`. -/
theorem C2_counterexample :
    synthesize (fun i => (i : ℤ)) (fun _ => 1) 1 0 (fun _ => 0) 0 = 127 ∧
    synthesize (fun i => (i : ℤ)) (fun _ => 1) 1 0 (fun _ => 0) ((0 + 1) % 256) ≠
      0 + ((128 - 1 : Nat) : ℤ) * 1 * 1 ∧
    synthesize (fun i => (i : ℤ)) (fun _ => 1) 1 0 (fun _ => 0) ((0 + 128 + 0) % 256) ≠
      0 + ((0 : Nat) : ℤ) * 1 * 1 := by
  have h0 := synthesize_apply (fun i => (i : ℤ)) (fun _ => 1) 1 0 (fun _ => 0)
    (by decide) 0 (by decide)
  have h1 := synthesize_apply (fun i => (i : ℤ)) (fun _ => 1) 1 0 (fun _ => 0)
    (by decide) 1 (by decide)
  have h128 := synthesize_apply (fun i => (i : ℤ)) (fun _ => 1) 1 0 (fun _ => 0)
    (by decide) 128 (by decide)
  simp [grainValue] at h0 h1 h128
  refine ⟨h0, ?_, ?_⟩
  · simp [h1]
  · simp [h128]

/-- C3: for 32-bit `phase` and `delta`, the test of line 167 on the phase that
line 166 has advanced succeeds exactly when `phase + delta` reaches `2 ^ 32`,
that is when the addition wrapped; the new phase is the sum reduced modulo
`2 ^ 32`, `delta` is not changed by the pass, and the test fails when `delta`
is zero. -/
theorem C3_trigger_iff_overflow (env : FloatEnv α) (s : State α) (x : α)
    (hphase : s.phase < 2 ^ 32) (hdelta : s.delta < 2 ^ 32) :
    (sampleStep env s x).1.phase = (s.phase + s.delta) % 2 ^ 32 ∧
    (sampleStep env s x).1.delta = s.delta ∧
    ((sampleStep env s x).1.phase < (sampleStep env s x).1.delta ↔
      2 ^ 32 ≤ s.phase + s.delta) ∧
    (fires s = true ↔ 2 ^ 32 ≤ s.phase + s.delta) ∧
    (s.delta = 0 → fires s = false) := by
  have key : (s.phase + s.delta) % 2 ^ 32 < s.delta ↔ 2 ^ 32 ≤ s.phase + s.delta := by
    norm_num at hphase hdelta ⊢
    omega
  refine ⟨rfl, rfl, key, ?_, ?_⟩
  · simp only [fires, decide_eq_true_eq]
    exact key
  · intro h0
    simp [fires, h0]

/-- An instance of C3: `firingState` has `phase + delta = 2 ^ 32 + 6`. -/
theorem C3_trigger_iff_overflow_witness :
    firingState.phase < 2 ^ 32 ∧ firingState.delta < 2 ^ 32 ∧
    (fires firingState = true ↔ 2 ^ 32 ≤ firingState.phase + firingState.delta) :=
  ⟨by decide, by decide,
    (C3_trigger_iff_overflow envQ firingState 5 (by decide) (by decide)).2.2.2.1⟩

end OneSample

/-! ## The phase accumulator over a run of samples -/

section Phase

variable {α : Type} [Zero α] [One α] [Add α] [Mul α] [Div α]

theorem fires_iff (s : State α) (hphase : s.phase < 2 ^ 32) (hdelta : s.delta < 2 ^ 32) :
    fires s = true ↔ 2 ^ 32 ≤ s.phase + s.delta := by
  simp only [fires, decide_eq_true_eq]
  norm_num at hphase hdelta ⊢
  omega

theorem processSamples_delta (env : FloatEnv α) :
    ∀ (xs : List α) (s : State α), (processSamples env s xs).1.delta = s.delta := by
  intro xs
  induction xs with
  | nil => intro s; rfl
  | cons x xs ih =>
    intro s
    simp only [processSamples]
    rw [ih]
    rfl

theorem processSamples_phase (env : FloatEnv α) :
    ∀ (xs : List α) (s : State α), s.phase < 2 ^ 32 →
      (processSamples env s xs).1.phase = (s.phase + xs.length * s.delta) % 2 ^ 32 := by
  intro xs
  induction xs with
  | nil =>
    intro s hs
    simp only [processSamples, List.length_nil, Nat.zero_mul, Nat.add_zero]
    exact (Nat.mod_eq_of_lt hs).symm
  | cons x xs ih =>
    intro s _
    have h1 : (sampleStep env s x).1.phase < 2 ^ 32 :=
      Nat.mod_lt (s.phase + s.delta) (by decide)
    simp only [processSamples]
    rw [ih (sampleStep env s x).1 h1]
    simp only [sampleStep, List.length_cons]
    rw [Nat.add_mod, Nat.mod_mod, ← Nat.add_mod]
    congr 1
    ring

/-- The triggers of a run are the carries of the phase accumulator. -/
theorem triggerCount_eq (env : FloatEnv α) :
    ∀ (xs : List α) (s : State α), s.phase < 2 ^ 32 → s.delta < 2 ^ 32 →
      triggerCount env s xs = (s.phase + xs.length * s.delta) / 2 ^ 32 := by
  intro xs
  induction xs with
  | nil =>
    intro s hs _
    simp only [triggerCount, List.length_nil, Nat.zero_mul, Nat.add_zero]
    exact (Nat.div_eq_of_lt hs).symm
  | cons x xs ih =>
    intro s hs hd
    have h1 : (sampleStep env s x).1.phase < 2 ^ 32 :=
      Nat.mod_lt (s.phase + s.delta) (by decide)
    have h2 : (sampleStep env s x).1.delta < 2 ^ 32 := hd
    simp only [triggerCount]
    rw [ih (sampleStep env s x).1 h1 h2]
    simp only [sampleStep, List.length_cons]
    have hsplit : s.phase + (xs.length + 1) * s.delta =
        (s.phase + s.delta) + xs.length * s.delta := by ring
    rw [hsplit]
    by_cases hf : fires s = true
    · have hge := (fires_iff s hs hd).1 hf
      rw [if_pos hf]
      norm_num at hs hd hge ⊢
      omega
    · have hlt : ¬ (2 ^ 32 ≤ s.phase + s.delta) := fun h => hf ((fires_iff s hs hd).2 h)
      rw [if_neg hf]
      norm_num at hs hd hlt ⊢
      omega

/-- C7: with `phase = 0` and a constant 32-bit `delta`, the number of samples of a
run on which the trigger fires is `floor (n * delta / 2 ^ 32)` for a run of `n`
samples; and when `delta * N = 2 ^ 32`, the `i`-th sample of the run (counted
from 1) fires exactly when `N` divides `i`. -/
theorem C7_trigger_count (env : FloatEnv α) (s : State α) (xs : List α)
    (hphase : s.phase = 0) (hdelta : s.delta < 2 ^ 32) :
    triggerCount env s xs = xs.length * s.delta / 2 ^ 32 ∧
    ∀ N, s.delta * N = 2 ^ 32 → ∀ i, 1 ≤ i → i ≤ xs.length →
      (fires (stateBefore env s xs (i - 1)) = true ↔ N ∣ i) := by
  have hp : s.phase < 2 ^ 32 := by
    rw [hphase]
    decide
  refine ⟨?_, ?_⟩
  · rw [triggerCount_eq env xs s hp hdelta, hphase, Nat.zero_add]
  · intro N hN i hi1 hi2
    have hlen : (xs.take (i - 1)).length = i - 1 := by
      rw [List.length_take]
      omega
    have hph : (stateBefore env s xs (i - 1)).phase = ((i - 1) * s.delta) % 2 ^ 32 := by
      unfold stateBefore
      rw [processSamples_phase env _ s hp, hlen, hphase, Nat.zero_add]
    have hde : (stateBefore env s xs (i - 1)).delta = s.delta := by
      unfold stateBefore
      rw [processSamples_delta]
    have hph_lt : (stateBefore env s xs (i - 1)).phase < 2 ^ 32 := by
      rw [hph]
      exact Nat.mod_lt _ (by decide)
    rw [fires_iff _ hph_lt (by rw [hde]; exact hdelta), hph, hde, ← hN]
    have hNpos : 0 < N := by
      rcases Nat.eq_zero_or_pos N with h | h
      · rw [h] at hN
        simp at hN
      · exact h
    have hdpos : 0 < s.delta := by
      rcases Nat.eq_zero_or_pos s.delta with h | h
      · rw [h] at hN
        simp at hN
      · exact h
    have hmod : ((i - 1) * s.delta) % (s.delta * N) = s.delta * ((i - 1) % N) := by
      rw [Nat.mul_comm (i - 1) s.delta, Nat.mul_mod_mul_left]
    rw [hmod]
    have hr : (i - 1) % N < N := Nat.mod_lt _ hNpos
    have hi : i = N * ((i - 1) / N) + ((i - 1) % N + 1) := by
      have := Nat.div_add_mod (i - 1) N
      omega
    have hdvd : N ∣ i ↔ (i - 1) % N + 1 = N := by
      constructor
      · intro h
        have h0 : i % N = 0 := Nat.mod_eq_zero_of_dvd h
        rw [hi, Nat.mul_add_mod] at h0
        rcases Nat.lt_or_ge ((i - 1) % N + 1) N with hlt | hge
        · rw [Nat.mod_eq_of_lt hlt] at h0
          omega
        · omega
      · intro h
        rw [hi, h]
        exact ⟨(i - 1) / N + 1, by ring⟩
    rw [hdvd]
    constructor
    · intro h
      have h2 : s.delta * N ≤ s.delta * ((i - 1) % N + 1) := by
        rw [Nat.mul_add, Nat.mul_one]
        exact h
      have h3 := Nat.le_of_mul_le_mul_left h2 hdpos
      omega
    · intro h
      have h2 : s.delta * ((i - 1) % N) + s.delta = s.delta * ((i - 1) % N + 1) := by ring
      rw [h2, h]

/-- An instance of C7: eight samples with `delta = 2 ^ 30`. -/
theorem C7_trigger_count_witness :
    quarterState.phase = 0 ∧ quarterState.delta < 2 ^ 32 ∧
    triggerCount envQ quarterState (List.replicate 8 0) =
      (List.replicate 8 (0 : ℚ)).length * quarterState.delta / 2 ^ 32 :=
  ⟨rfl, by decide, (C7_trigger_count envQ quarterState (List.replicate 8 0) rfl (by decide)).1⟩

end Phase

/-! ## Pitch hints -/

section Pitch

variable {α : Type} [Zero α] [One α] [Add α] [Mul α] [Div α]

theorem lastNoteOn_concat (midi : List MidiEvent) (m : MidiEvent) :
    lastNoteOn (midi ++ [m]) =
      if m.message.isNoteOn then some m.message.noteNumber else lastNoteOn midi := by
  unfold lastNoteOn
  by_cases h : m.message.isNoteOn = true
  · simp [List.filter_append, h]
  · simp [List.filter_append, h]

/-- The MIDI loop changes `delta` only, to the specified value. -/
theorem applyMidiBuffer_eq (env : FloatEnv α) (s : State α) (midi : List MidiEvent) :
    applyMidiBuffer env s midi = { s with delta := effectiveDelta env s midi } := by
  induction midi using List.reverseRecOn with
  | nil => rfl
  | append_singleton midi m ih =>
    unfold applyMidiBuffer at ih ⊢
    rw [List.foldl_append, List.foldl_cons, List.foldl_nil, ih]
    unfold effectiveDelta
    rw [lastNoteOn_concat]
    by_cases h : m.message.isNoteOn = true
    · simp [applyMidi, h]
    · simp [applyMidi, h]

/-- C9: a block runs all its samples with the `delta` of the last note-on of its
event list, or with the inherited `delta` when the list has no note-on: that is
the `delta` of the state in which each sample is processed and of the state the
block leaves. The sample positions of the events play no part, and events that
are not note-ons change nothing. -/
theorem C9_block_delta (env : FloatEnv α) (s : State α) (midi : List MidiEvent)
    (src : List α) :
    processBlock env s midi src =
      processSamples env { s with delta := effectiveDelta env s midi } src ∧
    (∀ t, (stateBefore env (applyMidiBuffer env s midi) src t).delta =
      effectiveDelta env s midi) ∧
    (processBlock env s midi src).1.delta = effectiveDelta env s midi ∧
    (∀ midi2 : List MidiEvent,
      midi2.map (fun m => m.message) = midi.map (fun m => m.message) →
        processBlock env s midi2 src = processBlock env s midi src) ∧
    ((∀ m ∈ midi, m.message.isNoteOn = false) →
      effectiveDelta env s midi = s.delta ∧
      processBlock env s midi src = processSamples env s src) := by
  have hpb : ∀ l : List MidiEvent, processBlock env s l src =
      processSamples env { s with delta := effectiveDelta env s l } src := by
    intro l
    unfold processBlock
    rw [applyMidiBuffer_eq]
  refine ⟨hpb midi, ?_, ?_, ?_, ?_⟩
  · intro t
    unfold stateBefore
    rw [processSamples_delta, applyMidiBuffer_eq]
  · rw [hpb, processSamples_delta]
  · intro midi2 h
    have hl : lastNoteOn midi2 = lastNoteOn midi := by
      unfold lastNoteOn
      have hf : ∀ l : List MidiEvent,
          ((l.filter (fun m => m.message.isNoteOn)).getLast?).map
              (fun m => m.message.noteNumber) =
            (((l.map (fun m => m.message)).filter (fun m => m.isNoteOn)).getLast?).map
              (fun m => m.noteNumber) := by
        intro l
        rw [List.filter_map, List.getLast?_map, Option.map_map]
        rfl
      rw [hf midi2, hf midi, h]
    rw [hpb midi2, hpb midi]
    unfold effectiveDelta
    rw [hl]
  · intro hall
    have hnone : lastNoteOn midi = none := by
      unfold lastNoteOn
      have : midi.filter (fun m => m.message.isNoteOn) = [] := by
        rw [List.filter_eq_nil_iff]
        intro m hm
        simp [hall m hm]
      rw [this]
      rfl
    have heff : effectiveDelta env s midi = s.delta := by
      unfold effectiveDelta
      rw [hnone]
    refine ⟨heff, ?_⟩
    rw [hpb, heff]

/-- C8, as the code has it: a note-on for note `n` sets `delta` to
`440.0f * exp2f((n-69)/12.0f) * 0x1p32f / 44100.0f` with the literal `44100.0f`,
whatever state it arrives in; the sample rate handed to `prepareToPlay` is not
read, so two sessions reset at different rates get the same `delta` for the same
note. -/
theorem C8_note_on_delta (env : FloatEnv α) (s : State α) (n : Int) (samplePosition : Nat)
    (src : List α) :
    (processBlock env s [noteOn n samplePosition] src).1.delta =
      env.toU32 (env.c440 * env.exp2f (env.ofInt (n - 69) / env.c12) * env.two32 / env.c44100)
        % 2 ^ 32 ∧
    (∀ (rate1 rate2 : ℚ) (size1 size2 : Int),
      (processBlock env (prepareToPlay env s rate1 size1) [noteOn n samplePosition] src).1.delta =
      (processBlock env (prepareToPlay env s rate2 size2) [noteOn n samplePosition] src).1.delta) ∧
    (∀ (rate1 rate2 : ℚ) (size1 size2 : Int),
      prepareToPlay env s rate1 size1 = prepareToPlay env s rate2 size2) := by
  have h : ∀ s0 : State α, (processBlock env s0 [noteOn n samplePosition] src).1.delta =
      noteDelta env n := by
    intro s0
    unfold processBlock
    rw [processSamples_delta]
    rfl
  refine ⟨h s, ?_, ?_⟩
  · intro rate1 rate2 size1 size2
    rw [h, h]
  · intro rate1 rate2 size1 size2
    rfl

/-- C8 as the spec states it fails: after a reset at 48000 Hz a note-on for
note 69 sets `delta` to 42852281, the value for 44100 Hz and the same as after a
reset at 44100 Hz; the formula of the claim gives 39370533 at 48000 Hz. -/
theorem C8_counterexample :
    (processBlock envQ (prepareToPlay envQ firingState 48000 4) [noteOn 69 0] []).1.delta
      = 42852281 ∧
    (processBlock envQ (prepareToPlay envQ firingState 48000 4) [noteOn 69 0] []).1.delta
      = (processBlock envQ (prepareToPlay envQ firingState 44100 4) [noteOn 69 0] []).1.delta ∧
    (processBlock envQ (prepareToPlay envQ firingState 48000 4) [noteOn 69 0] []).1.delta
      ≠ truncQ (440 * exp2Q (((69 - 69 : Int) : ℚ) / 12) * 4294967296 / 48000) := by
  have h1 : ⌊(440 * 4294967296 / 44100 : ℚ)⌋₊ = 42852281 := by
    rw [Nat.floor_eq_iff (by norm_num)]
    norm_num
  have h2 : ⌊(440 * 4294967296 / 48000 : ℚ)⌋₊ = 39370533 := by
    rw [Nat.floor_eq_iff (by norm_num)]
    norm_num
  have h3 : truncQ (440 * exp2Q (((69 - 69 : Int) : ℚ) / 12) * 4294967296 / 48000)
      = 39370533 := by
    simp [exp2Q, truncQ, h2]
  have h4 : ∀ rate : ℚ,
      (processBlock envQ (prepareToPlay envQ firingState rate 4) [noteOn 69 0] []).1.delta
        = 42852281 := by
    intro rate
    simp [processBlock, applyMidiBuffer, applyMidi, processSamples, noteDelta, envQ, exactEnv,
      exp2Q, truncQ, noteOn, h1]
  refine ⟨h4 48000, ?_, ?_⟩
  · rw [h4 48000, h4 44100]
  · rw [h4 48000, h3]
    decide

/-- C10, as the code has it: after `prepareToPlay`, whatever its arguments,
`delta` is the value of note 60 (middle C, about 261.6 Hz) at the fixed rate
44100: the expression `440.0f * exp2f((60-69)/12.0f) * 0x1p32f / 44100.0f`, which
is the `delta` a note-on for note 60 sets. -/
theorem C10_reset_delta (env : FloatEnv α) (s : State α) (sampleRate : ℚ)
    (samplesPerBlock : Int) :
    (prepareToPlay env s sampleRate samplesPerBlock).delta =
      env.toU32 (env.c440 * env.exp2f (env.ofInt (60 - 69) / env.c12) * env.two32 / env.c44100)
        % 2 ^ 32 ∧
    (∀ (s2 : State α) (samplePosition : Nat) (src : List α),
      (processBlock env s2 [noteOn 60 samplePosition] src).1.delta =
        (prepareToPlay env s sampleRate samplesPerBlock).delta) := by
  refine ⟨rfl, ?_⟩
  intro s2 samplePosition src
  unfold processBlock
  rw [processSamples_delta]
  rfl

/-- The real number `2 ^ (-3/4)` lies between `11/20` and `1`. -/
theorem exp2_neg_three_quarters_bounds :
    (11 / 20 : ℝ) ≤ (2 : ℝ) ^ (-(3 : ℝ) / 4) ∧ (2 : ℝ) ^ (-(3 : ℝ) / 4) ≤ 1 := by
  have hpos : (0 : ℝ) < (2 : ℝ) ^ (-(3 : ℝ) / 4) := Real.rpow_pos_of_pos (by norm_num) _
  have h4 : ((2 : ℝ) ^ (-(3 : ℝ) / 4)) ^ (4 : ℕ) = 1 / 8 := by
    rw [← Real.rpow_natCast, ← Real.rpow_mul (by norm_num)]
    have : (-(3 : ℝ) / 4) * ((4 : ℕ) : ℝ) = -((3 : ℕ) : ℝ) := by norm_num
    rw [this, Real.rpow_neg (by norm_num), Real.rpow_natCast]
    norm_num
  constructor
  · by_contra hlt
    push_neg at hlt
    have : ((2 : ℝ) ^ (-(3 : ℝ) / 4)) ^ (4 : ℕ) < (11 / 20 : ℝ) ^ (4 : ℕ) :=
      pow_lt_pow_left₀ hlt hpos.le (by norm_num)
    rw [h4] at this
    norm_num at this
  · by_contra hlt
    push_neg at hlt
    have : (1 : ℝ) ^ (4 : ℕ) < ((2 : ℝ) ^ (-(3 : ℝ) / 4)) ^ (4 : ℕ) :=
      pow_lt_pow_left₀ hlt (by norm_num) (by norm_num)
    rw [h4] at this
    norm_num at this

/-- C10 as the spec states it fails. Over the reals, with `exp2f x = 2 ^ x` and
the conversion to unsigned the truncation, a note-on for note 57 sets `delta` to
21426140, and `prepareToPlay` sets a `delta` of at least 23568754 (it is the one
of note 60). -/
theorem C10_counterexample :
    noteDelta (exactEnv Real.sqrt (fun x : ℝ => (2 : ℝ) ^ x) (fun x : ℝ => ⌊x⌋₊)) 57
      = 21426140 ∧
    23568754 ≤
      (prepareToPlay (exactEnv Real.sqrt (fun x : ℝ => (2 : ℝ) ^ x) (fun x : ℝ => ⌊x⌋₊))
        (blankState ℝ) 44100 4).delta ∧
    (prepareToPlay (exactEnv Real.sqrt (fun x : ℝ => (2 : ℝ) ^ x) (fun x : ℝ => ⌊x⌋₊))
        (blankState ℝ) 44100 4).delta ≠
      noteDelta (exactEnv Real.sqrt (fun x : ℝ => (2 : ℝ) ^ x) (fun x : ℝ => ⌊x⌋₊)) 57 := by
  have h57 : noteDelta (exactEnv Real.sqrt (fun x : ℝ => (2 : ℝ) ^ x) (fun x : ℝ => ⌊x⌋₊)) 57
      = 21426140 := by
    simp only [noteDelta, exactEnv]
    have e : (((57 - 69 : Int) : ℝ) / 12) = -1 := by norm_num
    rw [e, Real.rpow_neg_one]
    have : ⌊(440 * (2 : ℝ)⁻¹ * 4294967296 / 44100 : ℝ)⌋₊ = 21426140 := by
      rw [Nat.floor_eq_iff (by norm_num)]
      norm_num
    rw [this]
    norm_num
  have h60 : 23568754 ≤
      (prepareToPlay (exactEnv Real.sqrt (fun x : ℝ => (2 : ℝ) ^ x) (fun x : ℝ => ⌊x⌋₊))
        (blankState ℝ) 44100 4).delta := by
    simp only [prepareToPlay, noteDelta, exactEnv]
    have e : (((60 - 69 : Int) : ℝ) / 12) = -(3 : ℝ) / 4 := by norm_num
    rw [e]
    obtain ⟨hlo, hhi⟩ := exp2_neg_three_quarters_bounds
    have hge : 23568754 ≤ ⌊(440 * (2 : ℝ) ^ (-(3 : ℝ) / 4) * 4294967296 / 44100 : ℝ)⌋₊ := by
      apply Nat.le_floor
      rw [le_div_iff₀ (by norm_num)]
      norm_num
      nlinarith
    have hlt : ⌊(440 * (2 : ℝ) ^ (-(3 : ℝ) / 4) * 4294967296 / 44100 : ℝ)⌋₊ < 4294967296 := by
      rw [Nat.floor_lt (by positivity)]
      rw [div_lt_iff₀ (by norm_num)]
      norm_num
      nlinarith
    omega
  refine ⟨h57, h60, ?_⟩
  rw [h57]
  omega

end Pitch

/-! ## Silence -/

section Silence

variable {α : Type} [Field α]

/-- A write loop that adds zeros leaves the array as it was. -/
theorem ringAdd_foldl_zero (g : Nat → α) (hg : ∀ k, g k = 0) :
    ∀ (l : List Nat) (st : (Nat → α) × Nat), (l.foldl (ringAddBody g) st).1 = st.1 := by
  intro l
  induction l with
  | nil => intro st; rfl
  | cons k l ih =>
    intro st
    rw [List.foldl_cons, ih]
    simp only [ringAddBody, hg k, add_zero, Function.update_eq_self]

theorem synthesize_of_zero (R window : Nat → α) (scale : α) (pos : Nat) (Y : Nat → α)
    (hR : ∀ i, R i = 0) : synthesize R window scale pos Y = Y := by
  unfold synthesize
  rw [addBackwardBody_eq, addForwardBody_eq]
  rw [ringAdd_foldl_zero _ (fun k => by simp [hR]), ringAdd_foldl_zero _ (fun k => by simp [hR])]

/-- The autocorrelation loop keeps a zero profile at zero when the newest
sample is zero. -/
theorem autocorr_foldl_zero (env : FloatEnv α) (X : Nat → α) (pos : Nat) (hX : X pos = 0) :
    ∀ (l : List Nat) (st : (Nat → α) × Nat), (∀ i, st.1 i = 0) →
      ∀ i, (l.foldl (autocorrBody env X pos) st).1 i = 0 := by
  intro l
  induction l with
  | nil => intro st h i; exact h i
  | cons k l ih =>
    intro st h i
    rw [List.foldl_cons]
    apply ih
    intro j
    simp only [autocorrBody, hX, h k, zero_mul, mul_zero, add_zero]
    by_cases hj : j = k
    · rw [hj, Function.update_same]
    · rw [Function.update_noteq hj, h j]

theorem sampleStep_silent (env : FloatEnv α) (s : State α) (hs : Silent s) :
    Silent (sampleStep env s 0).1 ∧ (sampleStep env s 0).2 = 0 := by
  have hR : ∀ i, updatedR env s 0 i = 0 := by
    intro i
    unfold updatedR autocorr
    exact autocorr_foldl_zero env _ _ (by simp [storeInput]) _ _ hs.1 i
  have hY : accumulated env s 0 = s.Y := by
    unfold accumulated
    split
    · exact synthesize_of_zero _ _ _ _ _ hR
    · rfl
  refine ⟨⟨hR, ?_⟩, ?_⟩
  · intro i
    show Function.update (accumulated env s 0) s.pos 0 i = 0
    rw [hY]
    by_cases hi : i = s.pos
    · rw [hi, Function.update_same]
    · rw [Function.update_noteq hi, hs.2 i]
  · show accumulated env s 0 s.pos = 0
    rw [hY, hs.2]

theorem processSamples_silent (env : FloatEnv α) :
    ∀ (n : Nat) (s : State α), Silent s →
      Silent (processSamples env s (List.replicate n 0)).1 ∧
      (processSamples env s (List.replicate n 0)).2 = List.replicate n 0 := by
  intro n
  induction n with
  | zero => intro s hs; exact ⟨hs, rfl⟩
  | succ n ih =>
    intro s hs
    obtain ⟨h1, h2⟩ := sampleStep_silent env s hs
    obtain ⟨h3, h4⟩ := ih _ h1
    simp only [List.replicate_succ, processSamples]
    exact ⟨h3, by rw [h2, h4]⟩

theorem runBlocks_silent (env : FloatEnv α) :
    ∀ (blocks : List (List MidiEvent × Nat)) (s : State α), Silent s →
      Silent (runBlocks env s (silentBlocks blocks)).1 ∧
      (runBlocks env s (silentBlocks blocks)).2 =
        blocks.map (fun b => List.replicate b.2 0) := by
  intro blocks
  induction blocks with
  | nil => intro s hs; exact ⟨hs, rfl⟩
  | cons b blocks ih =>
    intro s hs
    have hm : Silent (applyMidiBuffer env s b.1) := by
      rw [applyMidiBuffer_eq]
      exact hs
    obtain ⟨h1, h2⟩ := processSamples_silent env b.2 _ hm
    obtain ⟨h3, h4⟩ := ih (processBlock env s b.1 (List.replicate b.2 0)).1 h1
    simp only [silentBlocks, List.map_cons, runBlocks] at h3 h4 ⊢
    refine ⟨h3, ?_⟩
    rw [h4]
    unfold processBlock
    rw [h2]

/-- C5: from the state `prepareToPlay` leaves, with any `delta` in place of the
default, every session of blocks of any sizes whose samples are all zero, with
any events in the blocks, puts out zeros only, block by block, and ends with
every `R[L]` and every `Y` slot zero. This holds for every interpretation of the
literals and of `sqrtf`; over the reals the gain correction on the zero profile
is `1 / sqrt (0 + 2 ^ -10) = 32`. -/
theorem C5_silence (env : FloatEnv α) (s : State α) (sampleRate : ℚ) (samplesPerBlock : Int)
    (Delta : Nat) (blocks : List (List MidiEvent × Nat)) :
    (runBlocks env { prepareToPlay env s sampleRate samplesPerBlock with delta := Delta }
        (silentBlocks blocks)).2 = blocks.map (fun b => List.replicate b.2 0) ∧
    (∀ L, (runBlocks env { prepareToPlay env s sampleRate samplesPerBlock with delta := Delta }
        (silentBlocks blocks)).1.R L = 0) ∧
    (∀ i, (runBlocks env { prepareToPlay env s sampleRate samplesPerBlock with delta := Delta }
        (silentBlocks blocks)).1.Y i = 0) ∧
    (∀ (e : ℝ → ℝ) (u : ℝ → Nat),
      gainScale (exactEnv Real.sqrt e u) (fun _ => (0 : ℝ)) = 32) := by
  have h0 : Silent { prepareToPlay env s sampleRate samplesPerBlock with delta := Delta } :=
    ⟨fun _ => rfl, fun _ => rfl⟩
  obtain ⟨⟨hR, hY⟩, hout⟩ := runBlocks_silent env blocks _ h0
  refine ⟨hout, hR, hY, ?_⟩
  intro e u
  simp only [gainScale, exactEnv]
  have h : Real.sqrt (0 + 1 / 1024) = 1 / 32 := by
    have h2 : (0 + 1 / 1024 : ℝ) = (1 / 32) ^ 2 := by norm_num
    rw [h2, Real.sqrt_sq (by norm_num)]
  rw [h]
  norm_num

end Silence

/-! ## The sign of `R[0]` -/

section Energy

variable {α : Type} [LinearOrderedField α]

/-- The lag-0 entry after one sample, over a field with the exact literals. -/
theorem updatedR_zero (sqrtf exp2f : α → α) (toU32 : α → Nat) (s : State α) (x : α)
    (hpos : s.pos < 256) :
    updatedR (exactEnv sqrtf exp2f toU32) s x 0 = s.R 0 * (399 / 400) + 1 / 400 * x * x := by
  rw [updatedR_apply _ s x hpos 0, if_pos (by decide)]
  have h : (s.pos + 256 - 0) % 256 = s.pos := by omega
  rw [h]
  simp [storeInput, exactEnv]

theorem updatedR_zero_nonneg (sqrtf exp2f : α → α) (toU32 : α → Nat) (s : State α) (x : α)
    (hs : EnergyInv s) : 0 ≤ updatedR (exactEnv sqrtf exp2f toU32) s x 0 := by
  rw [updatedR_zero sqrtf exp2f toU32 s x hs.1]
  have h1 : 0 ≤ s.R 0 * (399 / 400) := mul_nonneg hs.2 (by norm_num)
  have h2 : 0 ≤ 1 / 400 * x * x := by
    have : 1 / 400 * x * x = 1 / 400 * (x * x) := by ring
    rw [this]
    exact mul_nonneg (by norm_num) (mul_self_nonneg x)
  linarith

theorem sampleStep_energyInv (sqrtf exp2f : α → α) (toU32 : α → Nat) (s : State α) (x : α)
    (hs : EnergyInv s) : EnergyInv (sampleStep (exactEnv sqrtf exp2f toU32) s x).1 := by
  refine ⟨?_, ?_⟩
  · show (s.pos + 1) % 256 < 256
    omega
  · rw [sampleStep_R]
    exact updatedR_zero_nonneg sqrtf exp2f toU32 s x hs

theorem processSamples_energyInv (sqrtf exp2f : α → α) (toU32 : α → Nat) :
    ∀ (xs : List α) (s : State α), EnergyInv s →
      EnergyInv (processSamples (exactEnv sqrtf exp2f toU32) s xs).1 := by
  intro xs
  induction xs with
  | nil => intro s hs; exact hs
  | cons x xs ih =>
    intro s hs
    simp only [processSamples]
    exact ih _ (sampleStep_energyInv sqrtf exp2f toU32 s x hs)

theorem runBlocks_energyInv (sqrtf exp2f : α → α) (toU32 : α → Nat) :
    ∀ (blocks : List (List MidiEvent × List α)) (s : State α), EnergyInv s →
      EnergyInv (runBlocks (exactEnv sqrtf exp2f toU32) s blocks).1 := by
  intro blocks
  induction blocks with
  | nil => intro s hs; exact hs
  | cons b blocks ih =>
    intro s hs
    simp only [runBlocks]
    apply ih
    unfold processBlock
    apply processSamples_energyInv
    rw [applyMidiBuffer_eq]
    exact hs

/-- C6: over an ordered field with the exact literals, `R[0]` is zero after
`prepareToPlay`; one sample turns `R[0]` into `R[0] * 0.9975 + 0.0025 * x * x`,
which is not negative when `R[0]` was not; so after every session of blocks from
a reset, with any events and any samples, `R[0]` is not negative, and on the
next sample the quantity `R[0] + 2 ^ -10` under the square root is positive,
whatever that sample is. With a square root that is positive on positive
numbers, the gain correction is then a positive number. -/
theorem C6_energy_nonneg (sqrtf exp2f : α → α) (toU32 : α → Nat)
    (hsqrt : ∀ y : α, 0 < y → 0 < sqrtf y) :
    (∀ (s : State α) (rate : ℚ) (size : Int),
      (prepareToPlay (exactEnv sqrtf exp2f toU32) s rate size).R 0 = 0) ∧
    (∀ (s : State α) (x : α), s.pos < 256 →
      (sampleStep (exactEnv sqrtf exp2f toU32) s x).1.R 0 =
        s.R 0 * (399 / 400) + 1 / 400 * x * x ∧
      (0 ≤ s.R 0 → 0 ≤ (sampleStep (exactEnv sqrtf exp2f toU32) s x).1.R 0)) ∧
    (∀ (s : State α) (rate : ℚ) (size : Int) (blocks : List (List MidiEvent × List α)) (x : α),
      0 ≤ (runBlocks (exactEnv sqrtf exp2f toU32)
        (prepareToPlay (exactEnv sqrtf exp2f toU32) s rate size) blocks).1.R 0 ∧
      0 < updatedR (exactEnv sqrtf exp2f toU32)
          (runBlocks (exactEnv sqrtf exp2f toU32)
            (prepareToPlay (exactEnv sqrtf exp2f toU32) s rate size) blocks).1 x 0 +
        1 / 1024 ∧
      0 < gainScale (exactEnv sqrtf exp2f toU32)
        (updatedR (exactEnv sqrtf exp2f toU32)
          (runBlocks (exactEnv sqrtf exp2f toU32)
            (prepareToPlay (exactEnv sqrtf exp2f toU32) s rate size) blocks).1 x)) := by
  refine ⟨fun _ _ _ => rfl, ?_, ?_⟩
  · intro s x hpos
    rw [sampleStep_R]
    refine ⟨updatedR_zero sqrtf exp2f toU32 s x hpos, ?_⟩
    intro h0
    exact updatedR_zero_nonneg sqrtf exp2f toU32 s x ⟨hpos, h0⟩
  · intro s rate size blocks x
    have hreset : EnergyInv (prepareToPlay (exactEnv sqrtf exp2f toU32) s rate size) := by
      refine ⟨?_, ?_⟩
      · show (0 : Nat) < 256
        decide
      · simp only [prepareToPlay, le_refl]
    have hinv := runBlocks_energyInv sqrtf exp2f toU32 blocks _ hreset
    have hnext := updatedR_zero_nonneg sqrtf exp2f toU32 _ x hinv
    have hpos : 0 < updatedR (exactEnv sqrtf exp2f toU32)
        (runBlocks (exactEnv sqrtf exp2f toU32)
          (prepareToPlay (exactEnv sqrtf exp2f toU32) s rate size) blocks).1 x 0 + 1 / 1024 := by
      have : (0 : α) < 1 / 1024 := by norm_num
      linarith
    refine ⟨hinv.2, hpos, ?_⟩
    unfold gainScale
    exact div_pos one_pos (hsqrt _ hpos)

/-- An instance of C6: the reals with their square root. -/
theorem C6_energy_nonneg_witness :
    (∀ y : ℝ, 0 < y → 0 < Real.sqrt y) ∧
    0 < gainScale (exactEnv Real.sqrt (fun x : ℝ => (2 : ℝ) ^ x) (fun x : ℝ => ⌊x⌋₊))
      (updatedR (exactEnv Real.sqrt (fun x : ℝ => (2 : ℝ) ^ x) (fun x : ℝ => ⌊x⌋₊))
        (runBlocks (exactEnv Real.sqrt (fun x : ℝ => (2 : ℝ) ^ x) (fun x : ℝ => ⌊x⌋₊))
          (prepareToPlay (exactEnv Real.sqrt (fun x : ℝ => (2 : ℝ) ^ x) (fun x : ℝ => ⌊x⌋₊))
            (blankState ℝ) 44100 4) [([noteOn 69 0], [1, -1, 1, -1])]).1 1) :=
  ⟨fun _ hy => Real.sqrt_pos.mpr hy,
    ((C6_energy_nonneg Real.sqrt (fun x : ℝ => (2 : ℝ) ^ x) (fun x : ℝ => ⌊x⌋₊)
      (fun _ hy => Real.sqrt_pos.mpr hy)).2.2 (blankState ℝ) 44100 4
        [([noteOn 69 0], [1, -1, 1, -1])] 1).2.2⟩

end Energy

/-! ## Overlap-add -/

section Run

variable {α : Type} [Zero α] [One α] [Add α] [Mul α] [Div α]

theorem stateBefore_zero (env : FloatEnv α) (s : State α) (xs : List α) :
    stateBefore env s xs 0 = s :=
  rfl

theorem stateBefore_cons_succ (env : FloatEnv α) (s : State α) (x : α) (xs : List α)
    (t : Nat) :
    stateBefore env s (x :: xs) (t + 1) = stateBefore env (sampleStep env s x).1 xs t :=
  rfl

/-- The state of sample `t + 1` is the state of sample `t` after one pass of the
loop on sample `t`. -/
theorem stateBefore_succ (env : FloatEnv α) :
    ∀ (xs : List α) (s : State α) (t : Nat), t < xs.length →
      stateBefore env s xs (t + 1) =
        (sampleStep env (stateBefore env s xs t) (xs.getD t 0)).1 := by
  intro xs
  induction xs with
  | nil =>
    intro s t ht
    simp at ht
  | cons x xs ih =>
    intro s t ht
    cases t with
    | zero => rfl
    | succ t =>
      rw [stateBefore_cons_succ, stateBefore_cons_succ, List.getD_cons_succ]
      exact ih _ t (by simpa using ht)

/-- The output sample number `t` of a buffer is the one the loop body puts out
in the state of sample `t`. -/
theorem processSamples_output (env : FloatEnv α) :
    ∀ (xs : List α) (s : State α) (t : Nat), t < xs.length →
      (processSamples env s xs).2[t]? =
        some (sampleStep env (stateBefore env s xs t) (xs.getD t 0)).2 := by
  intro xs
  induction xs with
  | nil =>
    intro s t ht
    simp at ht
  | cons x xs ih =>
    intro s t ht
    cases t with
    | zero =>
      rw [stateBefore_zero, List.getD_cons_zero]
      simp only [processSamples, List.getElem?_cons_zero]
    | succ t =>
      rw [stateBefore_cons_succ, List.getD_cons_succ]
      simp only [processSamples, List.getElem?_cons_succ]
      exact ih _ t (by simpa using ht)

theorem stateBefore_pos (env : FloatEnv α) (xs : List α) (s : State α) (hpos : s.pos = 0) :
    ∀ t, t ≤ xs.length → (stateBefore env s xs t).pos = t % 256 := by
  intro t
  induction t with
  | zero =>
    intro _
    rw [stateBefore_zero, hpos]
  | succ t ih =>
    intro ht
    rw [stateBefore_succ env xs s t (by omega), sampleStep_pos, ih (by omega)]
    omega

end Run

section OverlapAdd

variable {α : Type} [Field α]

theorem accumulated_apply (env : FloatEnv α) (st : State α) (x : α) (hpos : st.pos < 256)
    (d : Nat) (hd : d < 256) :
    accumulated env st x ((st.pos + d) % 256) =
      st.Y ((st.pos + d) % 256) + (if d < 255 then grainOf env st x d else 0) := by
  by_cases hf : fires st = true
  · rw [accumulated_apply_of_fires env st x hpos hf d hd]
    by_cases h : d < 255
    · simp only [if_pos h, grainOf, hf, if_true]
    · simp only [if_neg h, add_zero]
  · have hf2 : fires st = false := by simpa using hf
    rw [accumulated_of_not_fires env st x hf2]
    simp [grainOf, hf2]

/-- The accumulator during a run from a state with `Y` zero and `pos = 0`: when
sample `t` starts, the slot `j` places ahead holds the sum of what the earlier
samples scheduled for time `t + j`. -/
theorem pending_sum (env : FloatEnv α) (s0 : State α) (xs : List α) (hpos : s0.pos = 0)
    (hY : ∀ i, s0.Y i = 0) :
    ∀ t, t ≤ xs.length → ∀ j, j < 256 →
      (stateBefore env s0 xs t).Y ((t + j) % 256) =
        ∑ i ∈ Finset.range t,
          if t + j ≤ i + 254 then
            grainOf env (stateBefore env s0 xs i) (xs.getD i 0) (t + j - i)
          else 0 := by
  intro t
  induction t with
  | zero =>
    intro _ j _
    rw [stateBefore_zero, hY]
    simp
  | succ t ih =>
    intro ht j hj
    have hp := stateBefore_pos env xs s0 hpos t (by omega)
    rw [stateBefore_succ env xs s0 t (by omega), sampleStep_Y]
    by_cases hj255 : j = 255
    · have hslot : (t + 1 + j) % 256 = (stateBefore env s0 xs t).pos := by
        rw [hp]
        omega
      rw [hslot, Function.update_same]
      symm
      apply Finset.sum_eq_zero
      intro i hi
      rw [Finset.mem_range] at hi
      rw [if_neg (by omega)]
    · have hne : (t + 1 + j) % 256 ≠ (stateBefore env s0 xs t).pos := by
        rw [hp]
        omega
      rw [Function.update_noteq hne]
      have hslot : (t + 1 + j) % 256 = ((stateBefore env s0 xs t).pos + (j + 1)) % 256 := by
        rw [hp]
        omega
      have hposlt : (stateBefore env s0 xs t).pos < 256 := by
        rw [hp]
        omega
      rw [hslot, accumulated_apply env _ _ hposlt (j + 1) (by omega)]
      have hslot2 : ((stateBefore env s0 xs t).pos + (j + 1)) % 256 = (t + (j + 1)) % 256 := by
        rw [hp]
        omega
      rw [hslot2, ih (by omega) (j + 1) (by omega), Finset.sum_range_succ]
      have e1 : t + (j + 1) = t + 1 + j := by omega
      have e2 : t + 1 + j - t = j + 1 := by omega
      have c1 : (t + 1 + j ≤ t + 254) ↔ (j + 1 < 255) := by omega
      rw [e1]
      simp only [e2, c1]

/-- The output of a run from a state with `Y` zero and `pos = 0`: sample `t` is
the sum of the grain values that the samples `i ≤ t` which fired, at most 254
samples back, have for the offset `t - i`. -/
theorem output_sum (env : FloatEnv α) (s0 : State α) (xs : List α) (hpos : s0.pos = 0)
    (hY : ∀ i, s0.Y i = 0) (t : Nat) (ht : t < xs.length) :
    (processSamples env s0 xs).2[t]? =
      some (∑ i ∈ (Finset.range (t + 1)).filter
              (fun i => t - i ≤ 254 ∧ fires (stateBefore env s0 xs i) = true),
            triggerGrain env s0 xs i (t - i)) := by
  have hp := stateBefore_pos env xs s0 hpos t (by omega)
  have hposlt : (stateBefore env s0 xs t).pos < 256 := by
    rw [hp]
    omega
  rw [processSamples_output env xs s0 t ht, sampleStep_out]
  have hacc := accumulated_apply env (stateBefore env s0 xs t) (xs.getD t 0) hposlt 0
    (by decide)
  have hslot : ((stateBefore env s0 xs t).pos + 0) % 256 = (stateBefore env s0 xs t).pos := by
    omega
  rw [hslot] at hacc
  rw [hacc]
  have hpend := pending_sum env s0 xs hpos hY t (by omega) 0 (by decide)
  have hslot2 : (t + 0) % 256 = (stateBefore env s0 xs t).pos := by
    rw [hp]
    omega
  rw [hslot2] at hpend
  rw [hpend, Finset.sum_filter, Finset.sum_range_succ]
  congr 1
  have htt : t - t = 0 := by omega
  congr 1
  · apply Finset.sum_congr rfl
    intro i _
    have c1 : (t + 0 ≤ i + 254) ↔ (t - i ≤ 254) := by omega
    have e1 : t + 0 - i = t - i := by omega
    simp only [c1, e1, grainOf, triggerGrain]
    by_cases h1 : t - i ≤ 254
    · by_cases h2 : fires (stateBefore env s0 xs i) = true
      · simp [h1, h2]
      · simp [h1, h2]
    · simp [h1]
  · simp only [htt, grainOf, triggerGrain]
    by_cases h2 : fires (stateBefore env s0 xs t) = true
    · simp [h2]
    · simp [h2]

/-- C4: in a run from a reset, with any `Delta` and any input, over any field,
the output sample of time `t` is the sum, over the times `i` with
`0 ≤ t - i ≤ 254` at which the trigger fired, of the grain value of offset
`t - i` computed from the `R` of time `i`: each grain value reaches the output
at its own time, none is cleared before, and the grains of triggers that overlap
add up. -/
theorem C4_overlap_add (env : FloatEnv α) (s : State α) (sampleRate : ℚ)
    (samplesPerBlock : Int) (Delta : Nat) (xs : List α) (t : Nat) (ht : t < xs.length) :
    (processSamples env (freshState env s sampleRate samplesPerBlock Delta) xs).2[t]? =
      some (∑ i ∈ (Finset.range (t + 1)).filter
              (fun i => t - i ≤ 254 ∧
                fires (stateBefore env (freshState env s sampleRate samplesPerBlock Delta)
                  xs i) = true),
            triggerGrain env (freshState env s sampleRate samplesPerBlock Delta) xs i
              (t - i)) :=
  output_sum env (freshState env s sampleRate samplesPerBlock Delta) xs rfl (fun _ => rfl) t ht

/-- An instance of C4: the third of four samples, with `delta = 2 ^ 31`. -/
theorem C4_overlap_add_witness :
    2 < [(1 : ℚ), 2, 3, 4].length ∧
    (processSamples envQ (freshState envQ firingState 44100 4 2147483648) [1, 2, 3, 4]).2[2]? =
      some (∑ i ∈ (Finset.range (2 + 1)).filter
              (fun i => 2 - i ≤ 254 ∧
                fires (stateBefore envQ (freshState envQ firingState 44100 4 2147483648)
                  [1, 2, 3, 4] i) = true),
            triggerGrain envQ (freshState envQ firingState 44100 4 2147483648) [1, 2, 3, 4] i
              (2 - i)) :=
  ⟨by decide, C4_overlap_add envQ firingState 44100 4 2147483648 [1, 2, 3, 4] 2 (by decide)⟩

end OverlapAdd

end SimpleVocoder
